import Mathlib

/-!
Shallow embedding of the chess-replay engine of pgn2pdf (src/game.rs).

The board is the 8×8 array `board[y][x]` of optional `(Color, Piece)`
occupants, modelled as a list of rows.  The candidate-search functions
(`find_piece!` macro, `find_king`, `find_knight`, `find_pawn`), the pin
filter (`piece_can_move`) and move application (`play!` macro and `play`)
are translated function by function.  Panics (`unwrap`, `unreachable!`,
index/arithmetic overflow in debug builds) are modelled as `Option.none`.
The `piece_can_move` function temporarily mutates the board and restores
it; it is modelled as returning the pair (result, board after the call)
so that the restore behaviour itself can be verified.
-/

namespace Pgn2Pdf

inductive Color where
  | Black
  | White
deriving DecidableEq, Repr

inductive Piece where
  | Pawn
  | Knight
  | Bishop
  | Rook
  | Queen
  | King
deriving DecidableEq, Repr

/-- The occupant of one square: `None` in the Rust code means empty. -/
abbrev Cell := Option (Color × Piece)

/-- `board` field of `ChessGame`: 8 rows of 8 cells, row index `y` first. -/
abbrev Board := List (List Cell)

/-- The `ChessGame` struct, fields in source order. -/
structure ChessGame where
  black_king : Nat × Nat
  board : Board
  turn : Color
  white_king : Nat × Nat
deriving DecidableEq, Repr

/-- Read `board[y][x]`; out-of-range reads (a panic in Rust) give `none`. -/
def getSq (b : Board) (x y : Nat) : Cell :=
  ((((b.get? y).getD []).get? x).getD none)

/-- Write `board[y][x] = v`; out-of-range writes are dropped. -/
def setSq (b : Board) (x y : Nat) (v : Cell) : Board :=
  b.set y (((b.get? y).getD []).set x v)

/-- `fn coord_valid(x: i32) -> bool { x >= 0 && x < 8 }` -/
def coordValid (x : Int) : Bool :=
  decide (0 ≤ x) && decide (x < 8)

/-- `fn is_valid(x: i32, y: i32) -> bool` -/
def isValid (x y : Int) : Bool :=
  coordValid x && coordValid y

/-- `fn opposite(color: &Color) -> Color` -/
def opposite (c : Color) : Color :=
  match c with
  | Color.Black => Color.White
  | Color.White => Color.Black

/-- Direction list of `find_bishop`. -/
def bishopDeltas : List (Int × Int) := [(1, 1), (1, -1), (-1, 1), (-1, -1)]

/-- Direction list of `find_queen`. -/
def queenDeltas : List (Int × Int) :=
  [(1, 1), (1, -1), (-1, 1), (-1, -1), (1, 0), (0, 1), (-1, 0), (0, -1)]

/-- Direction list of `find_rook`. -/
def rookDeltas : List (Int × Int) := [(1, 0), (0, 1), (-1, 0), (0, -1)]

/-- Offsets of `find_king`, in source order. -/
def kingDeltas : List (Int × Int) :=
  [(-1, -1), (0, -1), (1, -1), (-1, 0), (1, 0), (-1, 1), (0, 1), (1, 1)]

/-- Offsets of `find_knight`, in source order. -/
def knightDeltas : List (Int × Int) :=
  [(-1, -2), (-2, -1), (1, -2), (2, -1), (-1, 2), (-2, 1), (1, 2), (2, 1)]

/--
One direction of the `while is_valid(x, y)` walk of the `find_piece!`
macro.  `canMove` is `piece_can_move` when the `check_can_move` flag is
set and constantly `true` otherwise.  The fuel argument only bounds the
loop; a ray passes through at most 8 in-range squares, so fuel 8 makes
the function agree with the unbounded Rust loop.

Faithful to the source: a square whose occupant fails `canMove` is
skipped entirely (the walk continues); an empty square is passed
through; an occupant of the searched type is returned when its color
matches the searched color and the partial hint, and is otherwise
passed through without stopping the walk; only an occupant of a
different piece type hits the `_ => break` arm and ends the direction.
-/
def walkRay (canMove : Nat → Nat → Bool) (b : Board) (pt : Piece) (color : Color)
    (mfx mfy : Option Nat) (dx dy : Int) : Int → Int → Nat → Option (Nat × Nat)
  | _, _, 0 => none
  | x, y, Nat.succ fuel =>
    if isValid x y then
      if canMove x.toNat y.toNat then
        match getSq b x.toNat y.toNat with
        | none => walkRay canMove b pt color mfx mfy dx dy (x + dx) (y + dy) fuel
        | some (sc, p) =>
          if p = pt then
            if sc = color then
              match mfx with
              | some fx =>
                if x.toNat = fx then some (x.toNat, y.toNat)
                else walkRay canMove b pt color mfx mfy dx dy (x + dx) (y + dy) fuel
              | none =>
                match mfy with
                | some fy =>
                  if y.toNat = fy then some (x.toNat, y.toNat)
                  else walkRay canMove b pt color mfx mfy dx dy (x + dx) (y + dy) fuel
                | none => some (x.toNat, y.toNat)
            else walkRay canMove b pt color mfx mfy dx dy (x + dx) (y + dy) fuel
          else none
      else walkRay canMove b pt color mfx mfy dx dy (x + dx) (y + dy) fuel
    else none

/-- The `for &(dx, dy) in &$deltas` loop of the `find_piece!` macro. -/
def findPieceLoop (canMove : Nat → Nat → Bool) (b : Board) (pt : Piece) (color : Color)
    (mfx mfy : Option Nat) (to_x to_y : Nat) : List (Int × Int) → Option (Nat × Nat)
  | [] => none
  | (dx, dy) :: rest =>
    match walkRay canMove b pt color mfx mfy dx dy ((to_x : Int) + dx) ((to_y : Int) + dy) 8 with
    | some r => some r
    | none => findPieceLoop canMove b pt color mfx mfy to_x to_y rest

/-- Body of the `find_piece!` macro, parameterized by the pin predicate. -/
def findPieceWith (canMove : Nat → Nat → Bool) (b : Board) (pt : Piece)
    (deltas : List (Int × Int)) (to_x to_y : Nat) (color : Color)
    (mfx mfy : Option Nat) : Option (Nat × Nat) :=
  match mfx, mfy with
  | some fx, some fy => some (fx, fy)
  | _, _ => findPieceLoop canMove b pt color mfx mfy to_x to_y deltas

/--
`fn piece_can_move(&mut self, x, y, color) -> bool`, returned together
with the board as it stands when the function exits.  The occupant is
swapped out, the three slider searches run on the mutated board from the
moving side's cached king square, and the occupant is written back.
-/
def pieceCanMoveImpl (g : ChessGame) (x y : Nat) (color : Color) : Bool × Board :=
  let piece := getSq g.board x y
  let b1 := setSq g.board x y none
  match piece with
  | some pc =>
    let kp := if color = Color.White then g.white_king else g.black_king
    let opp := opposite color
    let found :=
      (findPieceWith (fun _ _ => true) b1 Piece.Bishop bishopDeltas kp.1 kp.2 opp none none).isSome ||
      (findPieceWith (fun _ _ => true) b1 Piece.Rook rookDeltas kp.1 kp.2 opp none none).isSome ||
      (findPieceWith (fun _ _ => true) b1 Piece.Queen queenDeltas kp.1 kp.2 opp none none).isSome
    (!found, setSq b1 x y (some pc))
  | none => (true, b1)

/-- The boolean result of `piece_can_move`. -/
def pieceCanMove (g : ChessGame) (x y : Nat) (color : Color) : Bool :=
  (pieceCanMoveImpl g x y color).1

/-- An instance of the `find_piece!` macro with its `check_can_move` flag. -/
def findPiece (g : ChessGame) (pt : Piece) (deltas : List (Int × Int))
    (to_x to_y : Nat) (color : Color) (mfx mfy : Option Nat) (check : Bool) :
    Option (Nat × Nat) :=
  findPieceWith (fun x y => if check then pieceCanMove g x y color else true)
    g.board pt deltas to_x to_y color mfx mfy

/-- `find_bishop` from `find_piece!(find_bishop, Bishop, ...)`. -/
def findBishop (g : ChessGame) (to_x to_y : Nat) (color : Color)
    (mfx mfy : Option Nat) (check : Bool) : Option (Nat × Nat) :=
  findPiece g Piece.Bishop bishopDeltas to_x to_y color mfx mfy check

/-- `find_queen` from `find_piece!(find_queen, Queen, ...)`. -/
def findQueen (g : ChessGame) (to_x to_y : Nat) (color : Color)
    (mfx mfy : Option Nat) (check : Bool) : Option (Nat × Nat) :=
  findPiece g Piece.Queen queenDeltas to_x to_y color mfx mfy check

/-- `find_rook` from `find_piece!(find_rook, Rook, ...)`. -/
def findRook (g : ChessGame) (to_x to_y : Nat) (color : Color)
    (mfx mfy : Option Nat) (check : Bool) : Option (Nat × Nat) :=
  findPiece g Piece.Rook rookDeltas to_x to_y color mfx mfy check

/-- The `for` loop of `fn find_king`: no hint, no pin filter, no break. -/
def findKingLoop (b : Board) (color : Color) (to_x to_y : Nat) :
    List (Int × Int) → Option (Nat × Nat)
  | [] => none
  | (dx, dy) :: rest =>
    let x := (to_x : Int) + dx
    let y := (to_y : Int) + dy
    if isValid x y then
      match getSq b x.toNat y.toNat with
      | some (sc, Piece.King) =>
        if sc = color then some (x.toNat, y.toNat)
        else findKingLoop b color to_x to_y rest
      | _ => findKingLoop b color to_x to_y rest
    else findKingLoop b color to_x to_y rest

/-- `fn find_king(&self, to_x, to_y, color)`. -/
def findKing (g : ChessGame) (to_x to_y : Nat) (color : Color) : Option (Nat × Nat) :=
  findKingLoop g.board color to_x to_y kingDeltas

/-- The `for` loop of `fn find_knight`: pin filter always on, hints, no break. -/
def findKnightLoop (g : ChessGame) (color : Color) (mfx mfy : Option Nat)
    (to_x to_y : Nat) : List (Int × Int) → Option (Nat × Nat)
  | [] => none
  | (dx, dy) :: rest =>
    let x := (to_x : Int) + dx
    let y := (to_y : Int) + dy
    if isValid x y then
      if pieceCanMove g x.toNat y.toNat color then
        match getSq g.board x.toNat y.toNat with
        | some (sc, Piece.Knight) =>
          if sc = color then
            match mfx with
            | some fx =>
              if x.toNat = fx then some (x.toNat, y.toNat)
              else findKnightLoop g color mfx mfy to_x to_y rest
            | none =>
              match mfy with
              | some fy =>
                if y.toNat = fy then some (x.toNat, y.toNat)
                else findKnightLoop g color mfx mfy to_x to_y rest
              | none => some (x.toNat, y.toNat)
          else findKnightLoop g color mfx mfy to_x to_y rest
        | _ => findKnightLoop g color mfx mfy to_x to_y rest
      else findKnightLoop g color mfx mfy to_x to_y rest
    else findKnightLoop g color mfx mfy to_x to_y rest

/-- `fn find_knight(&mut self, to_x, to_y, color, maybe_from_x, maybe_from_y)`. -/
def findKnight (g : ChessGame) (to_x to_y : Nat) (color : Color)
    (mfx mfy : Option Nat) : Option (Nat × Nat) :=
  match mfx, mfy with
  | some fx, some fy => some (fx, fy)
  | _, _ => findKnightLoop g color mfx mfy to_x to_y knightDeltas

/--
One pawn-origin attempt in `find_pawn`: the square `(x, row)` is the
origin when it holds a pawn (the occupant's color is matched by the
wildcard pattern `Some((_, Pawn))` in the source, so it is not checked)
that passes `piece_can_move`; any failure falls through to the next
attempt of the caller.
-/
def pawnTry (g : ChessGame) (color : Color) (x row : Nat) : Option (Nat × Nat) :=
  match getSq g.board x row with
  | some (_, Piece.Pawn) =>
    if pieceCanMove g x row color then some (x, row) else none
  | _ => none

/-- A capture attempt of `find_pawn` at int file `x`, guarded by `coord_valid`. -/
def tryCapture (g : ChessGame) (color : Color) (row : Nat) (x : Int) : Option (Nat × Nat) :=
  if coordValid x then pawnTry g color x.toNat row else none

/--
`fn find_pawn(&mut self, to_x, to_y, maybe_from_x, is_capture, color, delta)`.
`index1 = to_y + delta` is the row one step behind the target and
`index2 = to_y + delta * 2` the row two steps behind; every failed
attempt falls through to the next one and finally to `None`, exactly as
the nested `if let` chains of the source do.
-/
def findPawn (g : ChessGame) (to_x to_y : Nat) (mfx : Option Nat)
    (isCapture : Bool) (color : Color) (d : Int) : Option (Nat × Nat) :=
  if coordValid ((to_y : Int) + d) then
    if isCapture then
      match mfx with
      | some x => pawnTry g color x ((to_y : Int) + d).toNat
      | none =>
        match tryCapture g color ((to_y : Int) + d).toNat ((to_x : Int) - 1) with
        | some r => some r
        | none => tryCapture g color ((to_y : Int) + d).toNat ((to_x : Int) + 1)
    else
      match pawnTry g color to_x ((to_y : Int) + d).toNat with
      | some r => some r
      | none =>
        if coordValid ((to_y : Int) + d * 2) then
          pawnTry g color to_x ((to_y : Int) + d * 2).toNat
        else none
  else none

/--
A `NotationMove` at grid-index level, the shape consumed by the `play!`
macro after `square_to_indexes` / `square_to_maybe_indexes` have run:
either a `BasicMove` with the optional origin-hint coordinates, the
capture flag, the piece, the optional promotion piece and the mandatory
destination, or one of the castling forms.
-/
inductive Move where
  | basic (mfx mfy : Option Nat) (isCapture : Bool) (piece : Piece)
      (promotedTo : Option Piece) (to_x to_y : Nat)
  | castleKingside
  | castleQueenside
deriving DecidableEq, Repr

/-- `fn move_king(&mut self, color, x, y)`: update the king-location cache. -/
def moveKing (g : ChessGame) (color : Color) (x y : Nat) : ChessGame :=
  if color = Color.White then { g with white_king := (x, y) }
  else { g with black_king := (x, y) }

/-- The back-rank row chosen in the castling branches of `play!`. -/
def backRank (c : Color) : Nat :=
  match c with
  | Color.Black => 0
  | Color.White => 7

/-- The per-color pawn `delta` passed by `play!(play_white, White, 1)` etc. -/
def colorDelta (c : Color) : Int :=
  match c with
  | Color.Black => -1
  | Color.White => 1

/--
Body of the `play!` macro (`play_white` / `play_black`), with the color
and pawn delta as parameters.  A failing `.unwrap()` on the candidate
search is modelled as `none`.  Board writes keep the source order:
destination square first, then origin square, with the en-passant clear
before both.  The en-passant row `(to_y as i32 + delta) as usize` is
only evaluated after `find_pawn` succeeded, which guarantees
`coord_valid(to_y + delta)`, so `Int.toNat` agrees with the Rust cast.
-/
def playColor (g : ChessGame) (color : Color) (d : Int) (m : Move) : Option ChessGame :=
  match m with
  | Move.basic mfx mfy isCap piece promo to_x to_y =>
    match piece with
    | Piece.Bishop =>
      (findBishop g to_x to_y color mfx mfy true).map fun o =>
        { g with board := setSq (setSq g.board to_x to_y (some (color, Piece.Bishop))) o.1 o.2 none }
    | Piece.King =>
      (findKing g to_x to_y color).map fun o =>
        moveKing
          { g with board := setSq (setSq g.board to_x to_y (some (color, Piece.King))) o.1 o.2 none }
          color to_x to_y
    | Piece.Knight =>
      (findKnight g to_x to_y color mfx mfy).map fun o =>
        { g with board := setSq (setSq g.board to_x to_y (some (color, Piece.Knight))) o.1 o.2 none }
    | Piece.Pawn =>
      (findPawn g to_x to_y mfx isCap color d).map fun o =>
        let newPiece := promo.getD Piece.Pawn
        let b0 :=
          if isCap && (getSq g.board to_x to_y).isNone then
            setSq g.board to_x ((to_y : Int) + d).toNat none
          else g.board
        { g with board := setSq (setSq b0 to_x to_y (some (color, newPiece))) o.1 o.2 none }
    | Piece.Queen =>
      (findQueen g to_x to_y color mfx mfy true).map fun o =>
        { g with board := setSq (setSq g.board to_x to_y (some (color, Piece.Queen))) o.1 o.2 none }
    | Piece.Rook =>
      (findRook g to_x to_y color mfx mfy true).map fun o =>
        { g with board := setSq (setSq g.board to_x to_y (some (color, Piece.Rook))) o.1 o.2 none }
  | Move.castleKingside =>
    let line := backRank color
    let g1 := moveKing g color 6 line
    let b := setSq (setSq (setSq (setSq g1.board 6 line (some (color, Piece.King)))
      4 line none) 5 line (some (color, Piece.Rook))) 7 line none
    some { g1 with board := b }
  | Move.castleQueenside =>
    let line := backRank color
    let g1 := moveKing g color 2 line
    let b := setSq (setSq (setSq (setSq g1.board 2 line (some (color, Piece.King)))
      4 line none) 3 line (some (color, Piece.Rook))) 0 line none
    some { g1 with board := b }

/-- `pub fn play(&mut self, game_move)`: dispatch on the side to move and flip it. -/
def play (g : ChessGame) (m : Move) : Option ChessGame :=
  if g.turn = Color.White then
    (playColor g Color.White 1 m).map fun g1 => { g1 with turn := Color.Black }
  else
    (playColor g Color.Black (-1) m).map fun g1 => { g1 with turn := Color.White }

/-- `ChessGame::initial()`: the standard starting position, White to move. -/
def initialGame : ChessGame :=
  { black_king := (4, 0)
    board :=
      [[some (Color.Black, Piece.Rook), some (Color.Black, Piece.Knight),
        some (Color.Black, Piece.Bishop), some (Color.Black, Piece.Queen),
        some (Color.Black, Piece.King), some (Color.Black, Piece.Bishop),
        some (Color.Black, Piece.Knight), some (Color.Black, Piece.Rook)],
       [some (Color.Black, Piece.Pawn), some (Color.Black, Piece.Pawn),
        some (Color.Black, Piece.Pawn), some (Color.Black, Piece.Pawn),
        some (Color.Black, Piece.Pawn), some (Color.Black, Piece.Pawn),
        some (Color.Black, Piece.Pawn), some (Color.Black, Piece.Pawn)],
       [none, none, none, none, none, none, none, none],
       [none, none, none, none, none, none, none, none],
       [none, none, none, none, none, none, none, none],
       [none, none, none, none, none, none, none, none],
       [some (Color.White, Piece.Pawn), some (Color.White, Piece.Pawn),
        some (Color.White, Piece.Pawn), some (Color.White, Piece.Pawn),
        some (Color.White, Piece.Pawn), some (Color.White, Piece.Pawn),
        some (Color.White, Piece.Pawn), some (Color.White, Piece.Pawn)],
       [some (Color.White, Piece.Rook), some (Color.White, Piece.Knight),
        some (Color.White, Piece.Bishop), some (Color.White, Piece.Queen),
        some (Color.White, Piece.King), some (Color.White, Piece.Bishop),
        some (Color.White, Piece.Knight), some (Color.White, Piece.Rook)]]
    turn := Color.White
    white_king := (4, 7) }

/--
`fn square_to_indexes` file conversion: the `match column` arm list; any
other character hits `unreachable!()`, modelled as `none`.
-/
def charToFile (c : Char) : Option Nat :=
  if c = 'a' then some 0
  else if c = 'b' then some 1
  else if c = 'c' then some 2
  else if c = 'd' then some 3
  else if c = 'e' then some 4
  else if c = 'f' then some 5
  else if c = 'g' then some 6
  else if c = 'h' then some 7
  else none

/--
`fn square_to_indexes` rank conversion `8 - (line as usize - '0' as usize)`.
Each usize subtraction panics on underflow in a debug build; both panics
are modelled as `none`.  Note that the rank character is never compared
against the range 1–8: any digit distance `d` with `d ≤ 8` is accepted,
so `'0'` yields `8 - 0 = 8` without failing.
-/
def charToRank (l : Char) : Option Nat :=
  if l.toNat < Char.toNat '0' then none
  else if 8 < l.toNat - Char.toNat '0' then none
  else some (8 - (l.toNat - Char.toNat '0'))

/-- `fn square_to_indexes(square: &Square) -> (usize, usize)` at character level. -/
def squareToIndexes (c l : Char) : Option (Nat × Nat) :=
  match charToFile c with
  | none => none
  | some x =>
    match charToRank l with
    | none => none
    | some y => some (x, y)

/-! ### Shape of a well-formed board, invariants and concrete positions -/

/--
Well-formed board shape: 8 rows of 8 cells.  `ChessGame::initial` builds
such a board and every board write preserves the shape.
-/
def BoardWF (b : Board) : Prop :=
  b.length = 8 ∧ ∀ y, y < 8 → ((b.get? y).getD []).length = 8

instance : DecidablePred BoardWF := fun b => by
  unfold BoardWF
  infer_instance

/-! ### Concrete positions used as counterexamples and witnesses -/

/-- An empty board row. -/
def emptyRow : List Cell := [none, none, none, none, none, none, none, none]

/-- A row with a single occupant at file `x`. -/
def rowWith (x : Nat) (v : Cell) : List Cell := emptyRow.set x v

/--
Kings on e8/e1; a Black rook on f5 stands between the target square d5
and a White rook on h5 along the rank walked first by `find_rook`.
-/
def blockedRookGame : ChessGame :=
  { black_king := (4, 0)
    board :=
      [rowWith 4 (some (Color.Black, Piece.King)),
       emptyRow, emptyRow,
       (emptyRow.set 5 (some (Color.Black, Piece.Rook))).set 7 (some (Color.White, Piece.Rook)),
       emptyRow, emptyRow, emptyRow,
       rowWith 4 (some (Color.White, Piece.King))]
    turn := Color.White
    white_king := (4, 7) }

/--
Kings on e8/e1; a Black pawn on c4 and a White pawn on e4 are the two
diagonal squares behind the capture target d5 for White.
-/
def wrongColorPawnGame : ChessGame :=
  { black_king := (4, 0)
    board :=
      [rowWith 4 (some (Color.Black, Piece.King)),
       emptyRow, emptyRow, emptyRow,
       (emptyRow.set 2 (some (Color.Black, Piece.Pawn))).set 4 (some (Color.White, Piece.Pawn)),
       emptyRow, emptyRow,
       rowWith 4 (some (Color.White, Piece.King))]
    turn := Color.White
    white_king := (4, 7) }

/--
Kings on e8/e1; a White knight occupies e3 (one step behind the
non-capture target e4 for White) and a Black pawn sits on e2 (two steps
behind).
-/
def occupiedStepGame : ChessGame :=
  { black_king := (4, 0)
    board :=
      [rowWith 4 (some (Color.Black, Piece.King)),
       emptyRow, emptyRow, emptyRow, emptyRow,
       rowWith 4 (some (Color.White, Piece.Knight)),
       rowWith 4 (some (Color.Black, Piece.Pawn)),
       rowWith 4 (some (Color.White, Piece.King))]
    turn := Color.White
    white_king := (4, 7) }

/--
Kings on e8/e1; a White pawn on e5 next to a Black pawn on d5, the
position after Black's double step d7–d5, ready for exd6 en passant.
-/
def enPassantGame : ChessGame :=
  { black_king := (4, 0)
    board :=
      [rowWith 4 (some (Color.Black, Piece.King)),
       emptyRow, emptyRow,
       (emptyRow.set 3 (some (Color.Black, Piece.Pawn))).set 4 (some (Color.White, Piece.Pawn)),
       emptyRow, emptyRow, emptyRow,
       rowWith 4 (some (Color.White, Piece.King))]
    turn := Color.White
    white_king := (4, 7) }

/-- The file characters accepted by `square_to_indexes`. -/
def fileChars : List Char := ['a', 'b', 'c', 'd', 'e', 'f', 'g', 'h']

/-- The rank characters the spec declares in range. -/
def rankChars : List Char := ['1', '2', '3', '4', '5', '6', '7', '8']

/-- The cached king square of the side that is *not* to move. -/
def otherCache (g : ChessGame) : Nat × Nat :=
  if g.turn = Color.White then g.black_king else g.white_king

/-- A square that coincides with neither cached king square. -/
def cacheFree (g : ChessGame) (s : Nat × Nat) : Prop :=
  s ≠ g.white_king ∧ s ≠ g.black_king

/--
The invariant of the claim, over explicit components: the board is
8×8 and each color's cached square holds that color's king.
-/
def InvParts (b : Board) (wk bk : Nat × Nat) : Prop :=
  BoardWF b ∧
  getSq b wk.1 wk.2 = some (Color.White, Piece.King) ∧
  getSq b bk.1 bk.2 = some (Color.Black, Piece.King)

/-- The invariant of the claim for a game state. -/
def Inv (g : ChessGame) : Prop :=
  InvParts g.board g.white_king g.black_king

/--
A well-formed trusted move, the precondition under which the replay
engine is used (spec §1, §4.4): the destination is a board square, the
candidate search succeeds, and the squares the application writes —
destination, resolved origin and, for en passant, the captured pawn's
square — do not collide with a cached king square, except that a King
move writes its own new cache square.  All of these hold for the legal
moves of a well-formed game.
-/
def WellFormed (g : ChessGame) (m : Move) : Prop :=
  match m with
  | Move.basic mfx mfy isCap piece _promo to_x to_y =>
    to_x < 8 ∧ to_y < 8 ∧
    (match piece with
     | Piece.King =>
       (to_x, to_y) ≠ otherCache g ∧
       ∃ o, findKing g to_x to_y g.turn = some o ∧ o ≠ (to_x, to_y) ∧ o ≠ otherCache g
     | Piece.Pawn =>
       cacheFree g (to_x, to_y) ∧
       (∃ o, findPawn g to_x to_y mfx isCap g.turn (colorDelta g.turn) = some o ∧
         cacheFree g o) ∧
       (isCap = true → getSq g.board to_x to_y = none →
         cacheFree g (to_x, ((to_y : Int) + colorDelta g.turn).toNat))
     | Piece.Bishop =>
       cacheFree g (to_x, to_y) ∧
       ∃ o, findBishop g to_x to_y g.turn mfx mfy true = some o ∧ cacheFree g o
     | Piece.Knight =>
       cacheFree g (to_x, to_y) ∧
       ∃ o, findKnight g to_x to_y g.turn mfx mfy = some o ∧ cacheFree g o
     | Piece.Queen =>
       cacheFree g (to_x, to_y) ∧
       ∃ o, findQueen g to_x to_y g.turn mfx mfy true = some o ∧ cacheFree g o
     | Piece.Rook =>
       cacheFree g (to_x, to_y) ∧
       ∃ o, findRook g to_x to_y g.turn mfx mfy true = some o ∧ cacheFree g o)
  | Move.castleKingside =>
    otherCache g ≠ (4, backRank g.turn) ∧ otherCache g ≠ (5, backRank g.turn) ∧
    otherCache g ≠ (6, backRank g.turn) ∧ otherCache g ≠ (7, backRank g.turn)
  | Move.castleQueenside =>
    otherCache g ≠ (0, backRank g.turn) ∧ otherCache g ≠ (2, backRank g.turn) ∧
    otherCache g ≠ (3, backRank g.turn) ∧ otherCache g ≠ (4, backRank g.turn)

/--
Game states reachable from the initial position by `play` applications
on well-formed trusted moves.
-/
inductive ReachableWF : ChessGame → Prop
  | init : ReachableWF initialGame
  | step {g : ChessGame} {m : Move} {g' : ChessGame} :
      ReachableWF g → WellFormed g m → play g m = some g' → ReachableWF g'

/-! ### List access lemmas -/

theorem lset_get?D {α : Type} : ∀ (l : List α) (i : Nat) (d : α),
    l.set i ((l.get? i).getD d) = l
  | [], _, _ => rfl
  | _ :: _, 0, _ => rfl
  | a :: t, Nat.succ i, d => by
    simp only [List.set, List.get?]
    exact congrArg (a :: ·) (lset_get?D t i d)

theorem lset_oob {α : Type} : ∀ (l : List α) (i : Nat) (a : α),
    l.length ≤ i → l.set i a = l
  | [], _, _, _ => rfl
  | _ :: _, 0, _, h => absurd h (by simp)
  | b :: t, Nat.succ i, a, h => by
    simp only [List.set]
    exact congrArg (b :: ·) (lset_oob t i a (by simpa using h))

theorem lget?_set_self {α : Type} : ∀ (l : List α) (i : Nat) (a : α),
    i < l.length → (l.set i a).get? i = some a
  | [], i, _, h => absurd h (by simp)
  | _ :: _, 0, _, _ => rfl
  | b :: t, Nat.succ i, a, h => by
    simp only [List.set, List.get?]
    exact lget?_set_self t i a (by simpa using h)

theorem lget?_set_ne {α : Type} : ∀ (l : List α) (i j : Nat) (a : α),
    i ≠ j → (l.set i a).get? j = l.get? j
  | [], _, _, _, _ => rfl
  | _ :: _, 0, 0, _, h => absurd rfl h
  | _ :: _, 0, Nat.succ _, _, _ => rfl
  | _ :: _, Nat.succ _, 0, _, _ => rfl
  | b :: t, Nat.succ i, Nat.succ j, a, h => by
    simp only [List.set, List.get?]
    exact lget?_set_ne t i j a (fun hij => h (congrArg Nat.succ hij))

theorem lset_set {α : Type} : ∀ (l : List α) (i : Nat) (a b : α),
    (l.set i a).set i b = l.set i b
  | [], _, _, _ => rfl
  | _ :: _, 0, _, _ => rfl
  | c :: t, Nat.succ i, a, b => by
    simp only [List.set]
    exact congrArg (c :: ·) (lset_set t i a b)

theorem lget?_none {α : Type} : ∀ (l : List α) (i : Nat),
    l.get? i = none → l.length ≤ i
  | [], _, _ => by simp
  | _ :: _, 0, h => by simp [List.get?] at h
  | _ :: t, Nat.succ i, h => by
    simpa using lget?_none t i (by simpa [List.get?] using h)

theorem lget?_some_lt {α : Type} : ∀ (l : List α) (i : Nat) (x : α),
    l.get? i = some x → i < l.length
  | [], i, _, h => by simp [List.get?] at h
  | _ :: _, 0, _, _ => by simp
  | _ :: t, Nat.succ i, x, h => by
    simpa using lget?_some_lt t i x (by simpa [List.get?] using h)

/-! ### Board access lemmas -/

theorem setSq_getSq (b : Board) (x y : Nat) : setSq b x y (getSq b x y) = b := by
  unfold setSq getSq
  rw [lset_get?D, lset_get?D]

theorem setSq_oob (b : Board) (x y : Nat) (v : Cell) (h : b.get? y = none) :
    setSq b x y v = b := by
  unfold setSq
  exact lset_oob _ _ _ (lget?_none b y h)

theorem setSq_setSq (b : Board) (x y : Nat) (v w : Cell) :
    setSq (setSq b x y v) x y w = setSq b x y w := by
  cases hb : b.get? y with
  | none => rw [setSq_oob _ _ _ _ hb]
  | some row =>
    unfold setSq
    rw [hb, lget?_set_self _ _ _ (lget?_some_lt b y row hb)]
    simp only [Option.getD_some]
    rw [lset_set, lset_set]

theorem getSq_setSq_ne (b : Board) (x y x' y' : Nat) (v : Cell)
    (h : (x', y') ≠ (x, y)) : getSq (setSq b x y v) x' y' = getSq b x' y' := by
  by_cases hy : y' = y
  · subst hy
    have hx : x' ≠ x := fun hxx => h (by rw [hxx])
    cases hb : b.get? y' with
    | none => rw [setSq_oob _ _ _ _ hb]
    | some row =>
      unfold setSq getSq
      rw [hb, lget?_set_self _ _ _ (lget?_some_lt b y' row hb)]
      simp only [Option.getD_some]
      rw [lget?_set_ne _ _ _ _ (fun hxx => hx hxx.symm)]
  · unfold setSq getSq
    rw [lget?_set_ne _ _ _ _ (fun hyy => hy hyy.symm)]

theorem getSq_setSq_self (b : Board) (x y : Nat) (v : Cell)
    (hb : BoardWF b) (hx : x < 8) (hy : y < 8) :
    getSq (setSq b x y v) x y = v := by
  cases hget : b.get? y with
  | none =>
    exact absurd (lget?_none b y hget) (by rw [hb.1]; omega)
  | some row =>
    have hrow : row.length = 8 := by
      have h8 := hb.2 y hy
      rw [hget] at h8
      simpa using h8
    unfold setSq getSq
    rw [hget, lget?_set_self _ _ _ (by rw [hb.1]; exact hy)]
    simp only [Option.getD_some]
    rw [lget?_set_self _ _ _ (by rw [hrow]; exact hx)]
    rfl

theorem boardWF_setSq (b : Board) (x y : Nat) (v : Cell) (hb : BoardWF b) :
    BoardWF (setSq b x y v) := by
  constructor
  · show (setSq b x y v).length = 8
    unfold setSq
    rw [List.length_set]
    exact hb.1
  · intro y' hy'
    by_cases hyy : y' = y
    · subst hyy
      cases hget : b.get? y' with
      | none =>
        rw [setSq_oob _ _ _ _ hget]
        exact hb.2 y' hy'
      | some row =>
        show (((setSq b x y' v).get? y').getD []).length = 8
        unfold setSq
        rw [hget, lget?_set_self _ _ _ (by rw [hb.1]; exact hy')]
        simp only [Option.getD_some, List.length_set]
        have h8 := hb.2 y' hy'
        rw [hget] at h8
        simpa using h8
    · show (((setSq b x y v).get? y').getD []).length = 8
      unfold setSq
      rw [lget?_set_ne _ _ _ _ (fun hyy' => hyy hyy'.symm)]
      exact hb.2 y' hy'

/-! ### C5: the pin filter restores the board on every path -/

/--
C5.  `piece_can_move` leaves the board unchanged on every exit path: the
occupant swapped out of the candidate square is written back before the
function returns, whatever the result, so the board component of
`pieceCanMoveImpl` always equals the board before the call.
-/
theorem pieceCanMove_restores_board (g : ChessGame) (x y : Nat) (color : Color) :
    (pieceCanMoveImpl g x y color).2 = g.board := by
  have hset := setSq_getSq g.board x y
  unfold pieceCanMoveImpl
  cases hp : getSq g.board x y with
  | none =>
    rw [hp] at hset
    exact hset
  | some pc =>
    rw [hp] at hset
    show setSq (setSq g.board x y none) x y (some pc) = g.board
    rw [setSq_setSq]
    exact hset

/-! ### C8: the initial position -/

/--
C8.  `ChessGame::initial` produces exactly the standard initial chess
position: Black's back rank on row 0 and pawns on row 1, rows 2–5 empty,
White's pawns on row 6 and back rank on row 7, king caches at (4,0) for
Black and (4,7) for White, and White to move.
-/
theorem initial_standard_position :
    getSq initialGame.board 0 0 = some (Color.Black, Piece.Rook) ∧
    getSq initialGame.board 1 0 = some (Color.Black, Piece.Knight) ∧
    getSq initialGame.board 2 0 = some (Color.Black, Piece.Bishop) ∧
    getSq initialGame.board 3 0 = some (Color.Black, Piece.Queen) ∧
    getSq initialGame.board 4 0 = some (Color.Black, Piece.King) ∧
    getSq initialGame.board 5 0 = some (Color.Black, Piece.Bishop) ∧
    getSq initialGame.board 6 0 = some (Color.Black, Piece.Knight) ∧
    getSq initialGame.board 7 0 = some (Color.Black, Piece.Rook) ∧
    (∀ x : Fin 8, getSq initialGame.board x 1 = some (Color.Black, Piece.Pawn)) ∧
    (∀ x : Fin 8, ∀ y : Fin 4, getSq initialGame.board x (2 + y) = none) ∧
    (∀ x : Fin 8, getSq initialGame.board x 6 = some (Color.White, Piece.Pawn)) ∧
    getSq initialGame.board 0 7 = some (Color.White, Piece.Rook) ∧
    getSq initialGame.board 1 7 = some (Color.White, Piece.Knight) ∧
    getSq initialGame.board 2 7 = some (Color.White, Piece.Bishop) ∧
    getSq initialGame.board 3 7 = some (Color.White, Piece.Queen) ∧
    getSq initialGame.board 4 7 = some (Color.White, Piece.King) ∧
    getSq initialGame.board 5 7 = some (Color.White, Piece.Bishop) ∧
    getSq initialGame.board 6 7 = some (Color.White, Piece.Knight) ∧
    getSq initialGame.board 7 7 = some (Color.White, Piece.Rook) ∧
    initialGame.black_king = (4, 0) ∧
    initialGame.white_king = (4, 7) ∧
    initialGame.turn = Color.White := by
  exact ⟨rfl, rfl, rfl, rfl, rfl, rfl, rfl, rfl, by decide, by decide, by decide,
    rfl, rfl, rfl, rfl, rfl, rfl, rfl, rfl, rfl, rfl, rfl⟩

/-! ### C9: square addressing -/

/--
C9 counterexample.  The claim says the conversion fails for *every*
character outside 'a'..'h' / '1'..'8'.  The rank character '0' is
outside that range, yet `square_to_indexes` computes
`8 - ('0' - '0') = 8` without any failure and returns (0, 8).
-/
theorem squareToIndexes_rank_zero_cex :
    '0' ∉ rankChars ∧ squareToIndexes 'a' '0' = some (0, 8) := by
  decide

/--
C9 (amended).  For in-range characters the conversion returns
`(file - 'a', 8 - rank)`.  Out-of-range characters do not produce a
recoverable `InvalidSquareError` (no such error value exists in the
code): an out-of-range file character and a rank character outside
'0'..'8' hit `unreachable!()` or a usize-subtraction overflow, i.e. a
panic, modelled as `none` — except the rank character '0', which is
accepted and yields the out-of-board y-coordinate 8.
-/
theorem squareToIndexes_ranges :
    (∀ c, c ∈ fileChars → ∀ l, l ∈ rankChars →
      squareToIndexes c l = some (c.toNat - Char.toNat 'a', 8 - (l.toNat - Char.toNat '0'))) ∧
    (∀ c l, c ∉ fileChars → squareToIndexes c l = none) ∧
    (∀ c l, l.toNat < Char.toNat '0' ∨ Char.toNat '8' < l.toNat →
      squareToIndexes c l = none) ∧
    (∀ c, c ∈ fileChars → squareToIndexes c '0' = some (c.toNat - Char.toNat 'a', 8)) := by
  refine ⟨by decide, ?_, ?_, by decide⟩
  · intro c l hc
    have ha : c ≠ 'a' := fun h => hc (by rw [h]; decide)
    have hb : c ≠ 'b' := fun h => hc (by rw [h]; decide)
    have hc' : c ≠ 'c' := fun h => hc (by rw [h]; decide)
    have hd : c ≠ 'd' := fun h => hc (by rw [h]; decide)
    have he : c ≠ 'e' := fun h => hc (by rw [h]; decide)
    have hf : c ≠ 'f' := fun h => hc (by rw [h]; decide)
    have hg : c ≠ 'g' := fun h => hc (by rw [h]; decide)
    have hh : c ≠ 'h' := fun h => hc (by rw [h]; decide)
    unfold squareToIndexes charToFile
    rw [if_neg ha, if_neg hb, if_neg hc', if_neg hd, if_neg he, if_neg hf,
      if_neg hg, if_neg hh]
  · intro c l hl
    unfold squareToIndexes
    cases hcf : charToFile c with
    | none => rfl
    | some xv =>
      have hcr : charToRank l = none := by
        unfold charToRank
        cases hl with
        | inl h1 => rw [if_pos h1]
        | inr h2 =>
          have h48 : Char.toNat '0' = 48 := rfl
          have h56 : Char.toNat '8' = 56 := rfl
          rw [if_neg (by omega), if_pos (by omega)]
      rw [hcr]

/--
C9 witness: the in-range pair ('e', '4') maps to grid square (4, 4).
-/
theorem squareToIndexes_ranges_w : squareToIndexes 'e' '4' = some (4, 4) :=
  squareToIndexes_ranges.1 'e' (by decide) '4' (by decide)

/-! ### Pawn search lemmas, C10, C3, C7 -/

theorem pawnTry_some (g : ChessGame) (color : Color) (x row : Nat) (r : Nat × Nat)
    (h : pawnTry g color x row = some r) :
    r = (x, row) ∧ pieceCanMove g x row color = true := by
  unfold pawnTry at h
  split at h
  · split at h
    · exact ⟨(Option.some_injective _ h).symm, by assumption⟩
    · exact absurd h (by simp)
  · exact absurd h (by simp)

theorem tryCapture_some (g : ChessGame) (color : Color) (row : Nat) (x : Int)
    (r : Nat × Nat) (h : tryCapture g color row x = some r) :
    r = (x.toNat, row) ∧ pieceCanMove g x.toNat row color = true := by
  unfold tryCapture at h
  split at h
  · exact pawnTry_some g color x.toNat row r h
  · exact absurd h (by simp)

theorem findPawn_eq_invalid (g : ChessGame) (to_x to_y : Nat) (mfx : Option Nat)
    (isCap : Bool) (color : Color) (d : Int)
    (h : coordValid ((to_y : Int) + d) = false) :
    findPawn g to_x to_y mfx isCap color d = none := by
  unfold findPawn
  cases isCap <;> cases mfx <;> simp [h]

theorem findPawn_capture_hint_eq (g : ChessGame) (to_x to_y fx : Nat) (color : Color)
    (d : Int) (h1 : coordValid ((to_y : Int) + d) = true) :
    findPawn g to_x to_y (some fx) true color d
      = pawnTry g color fx ((to_y : Int) + d).toNat := by
  unfold findPawn
  rw [h1]
  rfl

theorem findPawn_capture_noHint_eq (g : ChessGame) (to_x to_y : Nat) (color : Color)
    (d : Int) (h1 : coordValid ((to_y : Int) + d) = true) :
    findPawn g to_x to_y none true color d
      = match tryCapture g color ((to_y : Int) + d).toNat ((to_x : Int) - 1) with
        | some r => some r
        | none => tryCapture g color ((to_y : Int) + d).toNat ((to_x : Int) + 1) := by
  unfold findPawn
  rw [h1]
  rfl

theorem findPawn_noncapture_eq (g : ChessGame) (to_x to_y : Nat) (mfx : Option Nat)
    (color : Color) (d : Int) (h1 : coordValid ((to_y : Int) + d) = true) :
    findPawn g to_x to_y mfx false color d
      = match pawnTry g color to_x ((to_y : Int) + d).toNat with
        | some r => some r
        | none =>
          if coordValid ((to_y : Int) + d * 2) then
            pawnTry g color to_x ((to_y : Int) + d * 2).toNat
          else none := by
  unfold findPawn
  cases mfx <;> rw [h1] <;> rfl

/--
C10.  Every pawn origin candidate passes the pin filter: whenever
`find_pawn` resolves an origin square, `piece_can_move` held for that
square — vacating it does not expose the moving side's king to an
opposing slider as tested by the three slider searches.
-/
theorem findPawn_pin_filter (g : ChessGame) (to_x to_y : Nat) (mfx : Option Nat)
    (isCap : Bool) (color : Color) (d : Int) (x y : Nat)
    (h : findPawn g to_x to_y mfx isCap color d = some (x, y)) :
    pieceCanMove g x y color = true := by
  cases hcv : coordValid ((to_y : Int) + d) with
  | false =>
    rw [findPawn_eq_invalid _ _ _ _ _ _ _ hcv] at h
    exact absurd h (by simp)
  | true =>
    cases isCap with
    | true =>
      cases mfx with
      | some fx =>
        rw [findPawn_capture_hint_eq _ _ _ _ _ _ hcv] at h
        obtain ⟨he, hm⟩ := pawnTry_some _ _ _ _ _ h
        obtain ⟨hx, hy⟩ := Prod.mk.injEq .. ▸ he
        rw [hx, hy]
        exact hm
      | none =>
        rw [findPawn_capture_noHint_eq _ _ _ _ _ hcv] at h
        cases htc : tryCapture g color ((to_y : Int) + d).toNat ((to_x : Int) - 1) with
        | some r =>
          rw [htc] at h
          have h2 : r = (x, y) := Option.some_injective _ h
          obtain ⟨he, hm⟩ := tryCapture_some _ _ _ _ _ htc
          rw [h2] at he
          obtain ⟨hx, hy⟩ := Prod.mk.injEq .. ▸ he
          rw [hx, hy]
          exact hm
        | none =>
          rw [htc] at h
          obtain ⟨he, hm⟩ := tryCapture_some _ _ _ _ _ h
          obtain ⟨hx, hy⟩ := Prod.mk.injEq .. ▸ he
          rw [hx, hy]
          exact hm
    | false =>
      rw [findPawn_noncapture_eq _ _ _ _ _ _ hcv] at h
      cases hpt : pawnTry g color to_x ((to_y : Int) + d).toNat with
      | some r =>
        rw [hpt] at h
        have h2 : r = (x, y) := Option.some_injective _ h
        obtain ⟨he, hm⟩ := pawnTry_some _ _ _ _ _ hpt
        rw [h2] at he
        obtain ⟨hx, hy⟩ := Prod.mk.injEq .. ▸ he
        rw [hx, hy]
        exact hm
      | none =>
        rw [hpt] at h
        cases hcv2 : coordValid ((to_y : Int) + d * 2) with
        | false =>
          rw [hcv2] at h
          exact absurd h (by simp)
        | true =>
          rw [hcv2] at h
          simp only [if_true] at h
          obtain ⟨he, hm⟩ := pawnTry_some _ _ _ _ _ h
          obtain ⟨hx, hy⟩ := Prod.mk.injEq .. ▸ he
          rw [hx, hy]
          exact hm

/--
C10 witness: resolving White's double-step e2–e4 from the initial
position returns the origin (4, 6), and the pin filter holds there.
-/
theorem findPawn_pin_filter_w : pieceCanMove initialGame 4 6 Color.White = true :=
  findPawn_pin_filter initialGame 4 4 none false Color.White 1 4 6 (by decide)

/--
C3 counterexample.  With no origin-file hint, a Black pawn on the left
diagonal square c4 and a White pawn on the right diagonal square e4,
White's capture to d5 resolves to the *Black* pawn's square (2, 4): the
source pattern `Some((_, Pawn))` never checks the pawn's color, so the
first diagonal tried wins even though it holds an enemy pawn,
contradicting "the first of these occupied by a pawn of the moving
color wins".
-/
theorem findPawn_capture_wrong_color_cex :
    getSq wrongColorPawnGame.board 2 4 = some (Color.Black, Piece.Pawn) ∧
    getSq wrongColorPawnGame.board 4 4 = some (Color.White, Piece.Pawn) ∧
    findPawn wrongColorPawnGame 3 3 none true Color.White 1 = some (2, 4) := by
  exact ⟨rfl, rfl, by decide⟩

/--
C3 (amended).  For a pawn capture with no origin-file hint, the two
diagonal squares one step behind the target are tried left (file
to_x−1) before right (file to_x+1), and the first of them that holds a
pawn of *either* color passing the pin filter wins; the pawn's color is
not checked.
-/
theorem findPawn_capture_noHint (g : ChessGame) (to_x to_y : Nat) (color : Color)
    (d : Int) (h1 : coordValid ((to_y : Int) + d) = true) :
    (∀ cl : Color, coordValid ((to_x : Int) - 1) = true →
      getSq g.board ((to_x : Int) - 1).toNat ((to_y : Int) + d).toNat = some (cl, Piece.Pawn) →
      pieceCanMove g ((to_x : Int) - 1).toNat ((to_y : Int) + d).toNat color = true →
      findPawn g to_x to_y none true color d
        = some (((to_x : Int) - 1).toNat, ((to_y : Int) + d).toNat)) ∧
    (tryCapture g color ((to_y : Int) + d).toNat ((to_x : Int) - 1) = none →
      ∀ cl : Color, coordValid ((to_x : Int) + 1) = true →
      getSq g.board ((to_x : Int) + 1).toNat ((to_y : Int) + d).toNat = some (cl, Piece.Pawn) →
      pieceCanMove g ((to_x : Int) + 1).toNat ((to_y : Int) + d).toNat color = true →
      findPawn g to_x to_y none true color d
        = some (((to_x : Int) + 1).toNat, ((to_y : Int) + d).toNat)) ∧
    (tryCapture g color ((to_y : Int) + d).toNat ((to_x : Int) - 1) = none →
      tryCapture g color ((to_y : Int) + d).toNat ((to_x : Int) + 1) = none →
      findPawn g to_x to_y none true color d = none) := by
  have hkey := findPawn_capture_noHint_eq g to_x to_y color d h1
  refine ⟨?_, ?_, ?_⟩
  · intro cl hcv hget hmove
    have hleft : tryCapture g color ((to_y : Int) + d).toNat ((to_x : Int) - 1)
        = some (((to_x : Int) - 1).toNat, ((to_y : Int) + d).toNat) := by
      unfold tryCapture pawnTry
      rw [if_pos hcv, hget, hmove, if_pos rfl]
    rw [hkey, hleft]
  · intro hnone cl hcv hget hmove
    have hright : tryCapture g color ((to_y : Int) + d).toNat ((to_x : Int) + 1)
        = some (((to_x : Int) + 1).toNat, ((to_y : Int) + d).toNat) := by
      unfold tryCapture pawnTry
      rw [if_pos hcv, hget, hmove, if_pos rfl]
    rw [hkey, hnone, hright]
  · intro hl hr
    rw [hkey, hl, hr]

/--
C3 witness: in `wrongColorPawnGame` the left diagonal square holds a
pawn passing the filter, so the capture search returns it first.
-/
theorem findPawn_capture_noHint_w :
    findPawn wrongColorPawnGame 3 3 none true Color.White 1 = some (2, 4) := by
  have h := (findPawn_capture_noHint wrongColorPawnGame 3 3 Color.White 1
    (by decide)).1 Color.Black (by decide) (by decide) (by decide)
  simpa using h

/--
C7 counterexample.  The one-step-behind square e3 holds a White Knight
(so it is occupied, and not by a pawn) and the two-steps-behind square
e2 holds a *Black* pawn; the non-capture resolution for White's move to
e4 nevertheless returns the two-steps-behind square (4, 6): the code
requires neither that the one-step square be empty nor that the pawn
found belong to the moving color.
-/
theorem findPawn_noncapture_cex :
    getSq occupiedStepGame.board 4 5 = some (Color.White, Piece.Knight) ∧
    getSq occupiedStepGame.board 4 6 = some (Color.Black, Piece.Pawn) ∧
    findPawn occupiedStepGame 4 4 none false Color.White 1 = some (4, 6) := by
  exact ⟨rfl, rfl, by decide⟩

/--
C7 (amended).  For a non-capturing pawn move the origin is the square
one step behind the target if it holds a pawn of either color passing
the pin filter; otherwise — whether the one-step square is empty,
occupied by a non-pawn, or holds a pawn failing the pin filter — the
square two steps behind is the origin if it is on the board and holds a
pawn of either color passing the pin filter.
-/
theorem findPawn_noncapture_order (g : ChessGame) (to_x to_y : Nat) (mfx : Option Nat)
    (color : Color) (d : Int) (h1 : coordValid ((to_y : Int) + d) = true) :
    (∀ cl : Color, getSq g.board to_x ((to_y : Int) + d).toNat = some (cl, Piece.Pawn) →
      pieceCanMove g to_x ((to_y : Int) + d).toNat color = true →
      findPawn g to_x to_y mfx false color d = some (to_x, ((to_y : Int) + d).toNat)) ∧
    (pawnTry g color to_x ((to_y : Int) + d).toNat = none →
      coordValid ((to_y : Int) + d * 2) = true →
      ∀ cl : Color, getSq g.board to_x ((to_y : Int) + d * 2).toNat = some (cl, Piece.Pawn) →
      pieceCanMove g to_x ((to_y : Int) + d * 2).toNat color = true →
      findPawn g to_x to_y mfx false color d = some (to_x, ((to_y : Int) + d * 2).toNat)) ∧
    (pawnTry g color to_x ((to_y : Int) + d).toNat = none →
      coordValid ((to_y : Int) + d * 2) = false →
      findPawn g to_x to_y mfx false color d = none) := by
  have hkey := findPawn_noncapture_eq g to_x to_y mfx color d h1
  refine ⟨?_, ?_, ?_⟩
  · intro cl hget hmove
    have hstep : pawnTry g color to_x ((to_y : Int) + d).toNat
        = some (to_x, ((to_y : Int) + d).toNat) := by
      unfold pawnTry
      rw [hget, hmove, if_pos rfl]
    rw [hkey, hstep]
  · intro hnone hcv cl hget hmove
    have hstep : pawnTry g color to_x ((to_y : Int) + d * 2).toNat
        = some (to_x, ((to_y : Int) + d * 2).toNat) := by
      unfold pawnTry
      rw [hget, hmove, if_pos rfl]
    rw [hkey, hnone, if_pos hcv, hstep]
  · intro hnone hcv
    rw [hkey, hnone, if_neg (by rw [hcv]; exact Bool.false_ne_true)]

/--
C7 witness: in `occupiedStepGame` the two-steps-behind square wins
after the one-step attempt fails on the knight.
-/
theorem findPawn_noncapture_order_w :
    findPawn occupiedStepGame 4 4 none false Color.White 1 = some (4, 6) := by
  have h := (findPawn_noncapture_order occupiedStepGame 4 4 none Color.White 1
    (by decide)).2.1 (by decide) (by decide) Color.Black (by decide) (by decide)
  simpa using h

/-! ### C1: the sliding-piece walk -/

/--
C1 counterexample.  The claim says any piece that is not a matching
candidate blocks the direction.  Searching for a White Rook from d5
(grid (3, 3)) along the first rook direction (1, 0), the Black rook on
f5 (grid (5, 3)) is occupied and not a matching candidate, yet the walk
passes through it and returns the White rook on h5 (grid (7, 3)) behind
it.
-/
theorem slider_not_blocked_cex :
    getSq blockedRookGame.board 5 3 = some (Color.Black, Piece.Rook) ∧
    findRook blockedRookGame 3 3 Color.White none none true = some (7, 3) := by
  exact ⟨rfl, by decide⟩

/--
C1 (amended).  At each in-range square of a direction walked by the
sliding search: an occupant failing the pin pre-check is skipped and the
walk continues; an unoccupied square is passed through; an occupant of
a piece type different from the searched one stops the walk (blocked);
an occupant of the searched type but of the other color is passed
through, not blocked; an occupant of the searched type and color is
returned when the hint is absent or matched — a file hint
(`maybe_from_x`) against the square's x, else a rank hint
(`maybe_from_y`) against the square's y — and is passed through, not
blocked, when the consulted hint mismatches.
-/
theorem walkRay_step_cases (canMove : Nat → Nat → Bool) (b : Board) (pt : Piece)
    (color : Color) (mfx mfy : Option Nat) (dx dy x y : Int) (fuel : Nat)
    (hv : isValid x y = true) :
    (canMove x.toNat y.toNat = false →
      walkRay canMove b pt color mfx mfy dx dy x y (fuel + 1)
        = walkRay canMove b pt color mfx mfy dx dy (x + dx) (y + dy) fuel) ∧
    (canMove x.toNat y.toNat = true → getSq b x.toNat y.toNat = none →
      walkRay canMove b pt color mfx mfy dx dy x y (fuel + 1)
        = walkRay canMove b pt color mfx mfy dx dy (x + dx) (y + dy) fuel) ∧
    (∀ sc p, canMove x.toNat y.toNat = true → getSq b x.toNat y.toNat = some (sc, p) →
      p ≠ pt →
      walkRay canMove b pt color mfx mfy dx dy x y (fuel + 1) = none) ∧
    (∀ sc, canMove x.toNat y.toNat = true → getSq b x.toNat y.toNat = some (sc, pt) →
      sc ≠ color →
      walkRay canMove b pt color mfx mfy dx dy x y (fuel + 1)
        = walkRay canMove b pt color mfx mfy dx dy (x + dx) (y + dy) fuel) ∧
    (canMove x.toNat y.toNat = true → getSq b x.toNat y.toNat = some (color, pt) →
      mfx = none → mfy = none →
      walkRay canMove b pt color mfx mfy dx dy x y (fuel + 1)
        = some (x.toNat, y.toNat)) ∧
    (∀ fx, canMove x.toNat y.toNat = true → getSq b x.toNat y.toNat = some (color, pt) →
      mfx = some fx → x.toNat = fx →
      walkRay canMove b pt color mfx mfy dx dy x y (fuel + 1)
        = some (x.toNat, y.toNat)) ∧
    (∀ fx, canMove x.toNat y.toNat = true → getSq b x.toNat y.toNat = some (color, pt) →
      mfx = some fx → x.toNat ≠ fx →
      walkRay canMove b pt color mfx mfy dx dy x y (fuel + 1)
        = walkRay canMove b pt color mfx mfy dx dy (x + dx) (y + dy) fuel) ∧
    (∀ fy, canMove x.toNat y.toNat = true → getSq b x.toNat y.toNat = some (color, pt) →
      mfx = none → mfy = some fy → y.toNat = fy →
      walkRay canMove b pt color mfx mfy dx dy x y (fuel + 1)
        = some (x.toNat, y.toNat)) ∧
    (∀ fy, canMove x.toNat y.toNat = true → getSq b x.toNat y.toNat = some (color, pt) →
      mfx = none → mfy = some fy → y.toNat ≠ fy →
      walkRay canMove b pt color mfx mfy dx dy x y (fuel + 1)
        = walkRay canMove b pt color mfx mfy dx dy (x + dx) (y + dy) fuel) := by
  refine ⟨?_, ?_, ?_, ?_, ?_, ?_, ?_, ?_, ?_⟩
  · intro hcm
    simp [walkRay, hv, hcm]
  · intro hcm hsq
    simp [walkRay, hv, hcm, hsq]
  · intro sc p hcm hsq hne
    simp [walkRay, hv, hcm, hsq, hne]
  · intro sc hcm hsq hne
    simp [walkRay, hv, hcm, hsq, hne]
  · intro hcm hsq hmfx hmfy
    simp [walkRay, hv, hcm, hsq, hmfx, hmfy]
  · intro fx hcm hsq hmfx hfx
    rw [hfx] at hcm hsq
    simp [walkRay, hv, hcm, hsq, hmfx, hfx]
  · intro fx hcm hsq hmfx hfx
    simp [walkRay, hv, hcm, hsq, hmfx, hfx]
  · intro fy hcm hsq hmfx hmfy hfy
    rw [hfy] at hcm hsq
    simp [walkRay, hv, hcm, hsq, hmfx, hmfy, hfy]
  · intro fy hcm hsq hmfx hmfy hfy
    simp [walkRay, hv, hcm, hsq, hmfx, hmfy, hfy]

/--
C1 witness: on the initial board, the walk from d5 one step to the
right passes through the empty square e5.
-/
theorem walkRay_step_cases_w :
    walkRay (fun _ _ => true) initialGame.board Piece.Rook Color.White none none
      1 0 4 3 2
      = walkRay (fun _ _ => true) initialGame.board Piece.Rook Color.White none none
      1 0 5 3 1 := by
  have h := (walkRay_step_cases (fun _ _ => true) initialGame.board Piece.Rook
    Color.White none none 1 0 4 3 1 (by decide)).2.1 rfl (by decide)
  simpa using h

/-! ### C4: en passant -/

theorem coordValid_bounds (x : Int) (h : coordValid x = true) : 0 ≤ x ∧ x < 8 := by
  unfold coordValid at h
  simpa using h

theorem pawnTry_some_getSq (g : ChessGame) (color : Color) (x row : Nat) (r : Nat × Nat)
    (h : pawnTry g color x row = some r) :
    ∃ cl, getSq g.board x row = some (cl, Piece.Pawn) := by
  unfold pawnTry at h
  split at h
  · next heq => exact ⟨_, heq⟩
  · exact absurd h (by simp)

theorem getSq_some_lt (b : Board) (x y : Nat) (v : Color × Piece)
    (hb : BoardWF b) (h : getSq b x y = some v) : x < 8 ∧ y < 8 := by
  unfold getSq at h
  cases hby : b.get? y with
  | none =>
    rw [hby] at h
    simp at h
  | some row =>
    rw [hby] at h
    simp only [Option.getD_some] at h
    have hy : y < 8 := by
      have hlt := lget?_some_lt b y row hby
      rw [hb.1] at hlt
      exact hlt
    refine ⟨?_, hy⟩
    cases hrx : row.get? x with
    | none =>
      rw [hrx] at h
      simp at h
    | some c =>
      have hxlt := lget?_some_lt row x c hrx
      have hrow := hb.2 y hy
      rw [hby] at hrow
      simp at hrow
      rw [hrow] at hxlt
      exact hxlt

theorem tryCapture_some_row (g : ChessGame) (color : Color) (row : Nat) (x : Int)
    (r : Nat × Nat) (h : tryCapture g color row x = some r) :
    r = (x.toNat, row) ∧ ∃ cl, getSq g.board x.toNat row = some (cl, Piece.Pawn) := by
  unfold tryCapture at h
  split at h
  · exact ⟨(pawnTry_some _ _ _ _ _ h).1, pawnTry_some_getSq _ _ _ _ _ h⟩
  · exact absurd h (by simp)

theorem findPawn_capture_row (g : ChessGame) (to_x to_y : Nat) (mfx : Option Nat)
    (color : Color) (d : Int) (fx fy : Nat)
    (h : findPawn g to_x to_y mfx true color d = some (fx, fy)) :
    fy = ((to_y : Int) + d).toNat ∧ coordValid ((to_y : Int) + d) = true ∧
    ∃ cl, getSq g.board fx fy = some (cl, Piece.Pawn) := by
  cases hcv : coordValid ((to_y : Int) + d) with
  | false =>
    rw [findPawn_eq_invalid _ _ _ _ _ _ _ hcv] at h
    exact absurd h (by simp)
  | true =>
    cases mfx with
    | some x0 =>
      rw [findPawn_capture_hint_eq _ _ _ _ _ _ hcv] at h
      obtain ⟨he, _⟩ := pawnTry_some _ _ _ _ _ h
      obtain ⟨hpx, hpy⟩ := Prod.mk.injEq .. ▸ he
      obtain ⟨cl, hg⟩ := pawnTry_some_getSq _ _ _ _ _ h
      rw [← hpx, ← hpy] at hg
      exact ⟨hpy, rfl, cl, hg⟩
    | none =>
      rw [findPawn_capture_noHint_eq _ _ _ _ _ hcv] at h
      cases htc : tryCapture g color ((to_y : Int) + d).toNat ((to_x : Int) - 1) with
      | some r =>
        rw [htc] at h
        have h2 : r = (fx, fy) := Option.some_injective _ h
        rw [h2] at htc
        obtain ⟨he, cl, hg⟩ := tryCapture_some_row _ _ _ _ _ htc
        obtain ⟨hpx, hpy⟩ := Prod.mk.injEq .. ▸ he
        rw [← hpx, ← hpy] at hg
        exact ⟨hpy, rfl, cl, hg⟩
      | none =>
        rw [htc] at h
        have h3 : tryCapture g color ((to_y : Int) + d).toNat ((to_x : Int) + 1)
            = some (fx, fy) := h
        obtain ⟨he, cl, hg⟩ := tryCapture_some_row _ _ _ _ _ h3
        obtain ⟨hpx, hpy⟩ := Prod.mk.injEq .. ▸ he
        rw [← hpx, ← hpy] at hg
        exact ⟨hpy, rfl, cl, hg⟩


theorem playColor_pawnCapture_board (g : ChessGame) (color : Color) (d : Int)
    (mfx mfy : Option Nat) (promo : Option Piece) (to_x to_y fx fy : Nat)
    (g1 : ChessGame)
    (hEmpty : getSq g.board to_x to_y = none)
    (hFind : findPawn g to_x to_y mfx true color d = some (fx, fy))
    (hPC : playColor g color d (Move.basic mfx mfy true Piece.Pawn promo to_x to_y)
      = some g1) :
    g1.board
      = setSq (setSq (setSq g.board to_x ((to_y : Int) + d).toNat none)
          to_x to_y (some (color, promo.getD Piece.Pawn))) fx fy none
    ∧ g1.black_king = g.black_king ∧ g1.white_king = g.white_king := by
  have hPC2 : (findPawn g to_x to_y mfx true color d).map (fun o =>
      { g with board :=
          setSq (setSq (if true && (getSq g.board to_x to_y).isNone then
              setSq g.board to_x ((to_y : Int) + d).toNat none
            else g.board) to_x to_y (some (color, promo.getD Piece.Pawn))) o.1 o.2 none })
      = some g1 := hPC
  rw [hFind, hEmpty] at hPC2
  simp only [Option.map_some', Option.isNone_none, Bool.and_self, if_true] at hPC2
  have hg1 := Option.some_injective _ hPC2
  rw [← hg1]
  exact ⟨rfl, rfl, rfl⟩

theorem ep_board_squares (b : Board) (to_x to_y i1 fx : Nat) (v : Cell)
    (hb : BoardWF b) (hx : to_x < 8) (hy : to_y < 8) (hi1 : i1 < 8)
    (hne : i1 ≠ to_y) (hfx : fx < 8) :
    getSq (setSq (setSq (setSq b to_x i1 none) to_x to_y v) fx i1 none) to_x i1 = none ∧
    getSq (setSq (setSq (setSq b to_x i1 none) to_x to_y v) fx i1 none) to_x to_y = v ∧
    getSq (setSq (setSq (setSq b to_x i1 none) to_x to_y v) fx i1 none) fx i1 = none := by
  have hb1 : BoardWF (setSq b to_x i1 none) := boardWF_setSq _ _ _ _ hb
  have hb2 : BoardWF (setSq (setSq b to_x i1 none) to_x to_y v) := boardWF_setSq _ _ _ _ hb1
  refine ⟨?_, ?_, ?_⟩
  · by_cases hfxx : fx = to_x
    · rw [hfxx]
      exact getSq_setSq_self _ _ _ _ hb2 hx hi1
    · rw [getSq_setSq_ne _ _ _ _ _ _ (fun hp => hfxx ((Prod.mk.injEq .. ▸ hp).1.symm)),
        getSq_setSq_ne _ _ _ _ _ _ (fun hp => hne (Prod.mk.injEq .. ▸ hp).2)]
      exact getSq_setSq_self _ _ _ _ hb hx hi1
  · rw [getSq_setSq_ne _ _ _ _ _ _ (fun hp => hne ((Prod.mk.injEq .. ▸ hp).2.symm))]
    exact getSq_setSq_self _ _ _ _ hb1 hx hy
  · exact getSq_setSq_self _ _ _ _ hb2 hfx hi1

/--
C4.  A pawn move flagged as a capture whose destination is empty before
placement is applied as en passant: the square one step behind the
destination in the mover's travel direction is cleared, in addition to
the pawn (or its promotion piece) being placed on the destination and
the origin being cleared.
-/
theorem en_passant_clear (g : ChessGame) (mfx mfy : Option Nat) (promo : Option Piece)
    (to_x to_y fx fy : Nat) (g' : ChessGame)
    (hWFb : BoardWF g.board) (hx : to_x < 8) (hy : to_y < 8)
    (hEmpty : getSq g.board to_x to_y = none)
    (hFind : findPawn g to_x to_y mfx true g.turn (colorDelta g.turn) = some (fx, fy))
    (hPlay : play g (Move.basic mfx mfy true Piece.Pawn promo to_x to_y) = some g') :
    getSq g'.board to_x ((to_y : Int) + colorDelta g.turn).toNat = none ∧
    getSq g'.board to_x to_y = some (g.turn, promo.getD Piece.Pawn) ∧
    getSq g'.board fx fy = none := by
  obtain ⟨hfy, hcv, cl, hpawn⟩ := findPawn_capture_row _ _ _ _ _ _ _ _ hFind
  obtain ⟨h0, h8⟩ := coordValid_bounds _ hcv
  have hδ : colorDelta g.turn = 1 ∨ colorDelta g.turn = -1 := by
    cases g.turn <;> simp [colorDelta]
  have hi1lt : ((to_y : Int) + colorDelta g.turn).toNat < 8 := by omega
  have hi1ne : ((to_y : Int) + colorDelta g.turn).toNat ≠ to_y := by
    rcases hδ with h | h <;> rw [h] at h0 h8 ⊢ <;> omega
  obtain ⟨hfx8, _⟩ := getSq_some_lt _ _ _ _ hWFb hpawn
  have hsq := ep_board_squares g.board to_x to_y ((to_y : Int) + colorDelta g.turn).toNat
    fx (some (g.turn, promo.getD Piece.Pawn)) hWFb hx hy hi1lt hi1ne hfx8
  unfold play at hPlay
  cases ht : g.turn with
  | White =>
    rw [ht] at hPlay hFind hfy hsq
    rw [if_pos rfl] at hPlay
    obtain ⟨g1, hPC, hg'⟩ := Option.map_eq_some'.mp hPlay
    obtain ⟨hb, _, _⟩ := playColor_pawnCapture_board g Color.White (colorDelta Color.White)
      mfx mfy promo to_x to_y fx fy g1 hEmpty hFind hPC
    have hgb : g'.board = g1.board := by rw [← hg']
    rw [hgb, hb, hfy]
    exact hsq
  | Black =>
    rw [ht] at hPlay hFind hfy hsq
    rw [if_neg (fun hw => Color.noConfusion hw)] at hPlay
    obtain ⟨g1, hPC, hg'⟩ := Option.map_eq_some'.mp hPlay
    obtain ⟨hb, _, _⟩ := playColor_pawnCapture_board g Color.Black (colorDelta Color.Black)
      mfx mfy promo to_x to_y fx fy g1 hEmpty hFind hPC
    have hgb : g'.board = g1.board := by rw [← hg']
    rw [hgb, hb, hfy]
    exact hsq

/--
C4 witness: in `enPassantGame`, White's exd6 capture to the empty d6
square removes the Black pawn on d5, places the White pawn on d6 and
clears e5.
-/
theorem en_passant_clear_w :
    getSq ((play enPassantGame (Move.basic none none true Piece.Pawn none 3 2)).getD
      enPassantGame).board 3 3 = none := by
  have h := en_passant_clear enPassantGame none none none 3 2 4 3
    ((play enPassantGame (Move.basic none none true Piece.Pawn none 3 2)).getD enPassantGame)
    (by decide) (by decide) (by decide) (by decide) (by decide) (by decide)
  simpa using h.1

/-! ### C6: castling kingside for White -/

/--
C6.  With White to move, a single `play` of castle-kingside puts the
White King on g1 (grid (6,7)) and the White Rook on f1 (grid (5,7)),
leaves e1 (grid (4,7)) and h1 (grid (7,7)) empty, and updates the White
king-location cache to (6, 7), all in the same application.
-/
theorem castle_kingside_white (g : ChessGame) (hT : g.turn = Color.White)
    (hWFb : BoardWF g.board) :
    ∃ g', play g Move.castleKingside = some g' ∧
      getSq g'.board 6 7 = some (Color.White, Piece.King) ∧
      getSq g'.board 5 7 = some (Color.White, Piece.Rook) ∧
      getSq g'.board 4 7 = none ∧
      getSq g'.board 7 7 = none ∧
      g'.white_king = (6, 7) := by
  have hb1 : BoardWF (setSq g.board 6 7 (some (Color.White, Piece.King))) :=
    boardWF_setSq _ _ _ _ hWFb
  have hb2 : BoardWF (setSq (setSq g.board 6 7 (some (Color.White, Piece.King))) 4 7 none) :=
    boardWF_setSq _ _ _ _ hb1
  have hb3 : BoardWF (setSq (setSq (setSq g.board 6 7 (some (Color.White, Piece.King)))
      4 7 none) 5 7 (some (Color.White, Piece.Rook))) :=
    boardWF_setSq _ _ _ _ hb2
  unfold play
  rw [hT, if_pos rfl]
  refine ⟨_, rfl, ?_, ?_, ?_, ?_, rfl⟩
  · show getSq (setSq (setSq (setSq (setSq g.board 6 7 (some (Color.White, Piece.King)))
      4 7 none) 5 7 (some (Color.White, Piece.Rook))) 7 7 none) 6 7
      = some (Color.White, Piece.King)
    rw [getSq_setSq_ne _ _ _ _ _ _ (by decide), getSq_setSq_ne _ _ _ _ _ _ (by decide),
      getSq_setSq_ne _ _ _ _ _ _ (by decide)]
    exact getSq_setSq_self _ _ _ _ hWFb (by omega) (by omega)
  · show getSq (setSq (setSq (setSq (setSq g.board 6 7 (some (Color.White, Piece.King)))
      4 7 none) 5 7 (some (Color.White, Piece.Rook))) 7 7 none) 5 7
      = some (Color.White, Piece.Rook)
    rw [getSq_setSq_ne _ _ _ _ _ _ (by decide)]
    exact getSq_setSq_self _ _ _ _ hb2 (by omega) (by omega)
  · show getSq (setSq (setSq (setSq (setSq g.board 6 7 (some (Color.White, Piece.King)))
      4 7 none) 5 7 (some (Color.White, Piece.Rook))) 7 7 none) 4 7 = none
    rw [getSq_setSq_ne _ _ _ _ _ _ (by decide), getSq_setSq_ne _ _ _ _ _ _ (by decide)]
    exact getSq_setSq_self _ _ _ _ hb1 (by omega) (by omega)
  · show getSq (setSq (setSq (setSq (setSq g.board 6 7 (some (Color.White, Piece.King)))
      4 7 none) 5 7 (some (Color.White, Piece.Rook))) 7 7 none) 7 7 = none
    exact getSq_setSq_self _ _ _ _ hb3 (by omega) (by omega)

/--
C6 witness: castling kingside from the initial position (legal or not,
the application is unconditional) produces exactly these squares.
-/
theorem castle_kingside_white_w :
    ∃ g', play initialGame Move.castleKingside = some g' ∧
      getSq g'.board 6 7 = some (Color.White, Piece.King) ∧
      getSq g'.board 5 7 = some (Color.White, Piece.Rook) ∧
      getSq g'.board 4 7 = none ∧
      getSq g'.board 7 7 = none ∧
      g'.white_king = (6, 7) :=
  castle_kingside_white initialGame rfl (by decide)

/-! ### C2: the king-location cache invariant -/

theorem eta_ne {a b : Nat × Nat} (h : b ≠ a) : (a.1, a.2) ≠ (b.1, b.2) := by
  intro he
  rw [Prod.mk.eta, Prod.mk.eta] at he
  exact h he.symm

theorem eta_ne_pair {a : Nat × Nat} {p q : Nat} (h : a ≠ (p, q)) :
    (a.1, a.2) ≠ (p, q) := by
  intro he
  rw [Prod.mk.eta] at he
  exact h he

theorem otherCache_white (g : ChessGame) (h : g.turn = Color.White) :
    otherCache g = g.black_king := by
  unfold otherCache
  rw [h, if_pos rfl]

theorem otherCache_black (g : ChessGame) (h : g.turn = Color.Black) :
    otherCache g = g.white_king := by
  unfold otherCache
  rw [h, if_neg (fun hw => Color.noConfusion hw)]

theorem invParts_one_set (b : Board) (wk bk s : Nat × Nat) (v : Cell)
    (h : InvParts b wk bk) (h1 : s ≠ wk) (h2 : s ≠ bk) :
    InvParts (setSq b s.1 s.2 v) wk bk := by
  refine ⟨boardWF_setSq _ _ _ _ h.1, ?_, ?_⟩
  · rw [getSq_setSq_ne _ _ _ _ _ _ (eta_ne h1)]
    exact h.2.1
  · rw [getSq_setSq_ne _ _ _ _ _ _ (eta_ne h2)]
    exact h.2.2

theorem invParts_white_king_move (b : Board) (wk bk dest o : Nat × Nat)
    (h : InvParts b wk bk) (hdx : dest.1 < 8) (hdy : dest.2 < 8)
    (hod : o ≠ dest) (hob : o ≠ bk) (hdb : dest ≠ bk) :
    InvParts (setSq (setSq b dest.1 dest.2 (some (Color.White, Piece.King))) o.1 o.2 none)
      dest bk := by
  have hb1 := boardWF_setSq b dest.1 dest.2 (some (Color.White, Piece.King)) h.1
  refine ⟨boardWF_setSq _ _ _ _ hb1, ?_, ?_⟩
  · rw [getSq_setSq_ne _ _ _ _ _ _ (eta_ne hod)]
    exact getSq_setSq_self _ _ _ _ h.1 hdx hdy
  · rw [getSq_setSq_ne _ _ _ _ _ _ (eta_ne hob),
      getSq_setSq_ne _ _ _ _ _ _ (eta_ne hdb)]
    exact h.2.2

theorem invParts_black_king_move (b : Board) (wk bk dest o : Nat × Nat)
    (h : InvParts b wk bk) (hdx : dest.1 < 8) (hdy : dest.2 < 8)
    (hod : o ≠ dest) (how : o ≠ wk) (hdw : dest ≠ wk) :
    InvParts (setSq (setSq b dest.1 dest.2 (some (Color.Black, Piece.King))) o.1 o.2 none)
      wk dest := by
  have hb1 := boardWF_setSq b dest.1 dest.2 (some (Color.Black, Piece.King)) h.1
  refine ⟨boardWF_setSq _ _ _ _ hb1, ?_, ?_⟩
  · rw [getSq_setSq_ne _ _ _ _ _ _ (eta_ne how),
      getSq_setSq_ne _ _ _ _ _ _ (eta_ne hdw)]
    exact h.2.1
  · rw [getSq_setSq_ne _ _ _ _ _ _ (eta_ne hod)]
    exact getSq_setSq_self _ _ _ _ h.1 hdx hdy

theorem castle_board_wf_king (b : Board) (c : Color) (line kx rx corner : Nat)
    (hbw : BoardWF b) (hkx : kx < 8) (hline : line < 8)
    (hk4 : kx ≠ 4) (hkr : kx ≠ rx) (hkc : kx ≠ corner) :
    BoardWF (setSq (setSq (setSq (setSq b kx line (some (c, Piece.King)))
        4 line none) rx line (some (c, Piece.Rook))) corner line none) ∧
    getSq (setSq (setSq (setSq (setSq b kx line (some (c, Piece.King)))
        4 line none) rx line (some (c, Piece.Rook))) corner line none) kx line
      = some (c, Piece.King) := by
  have hb1 := boardWF_setSq b kx line (some (c, Piece.King)) hbw
  have hb2 := boardWF_setSq _ 4 line none hb1
  have hb3 := boardWF_setSq _ rx line (some (c, Piece.Rook)) hb2
  refine ⟨boardWF_setSq _ _ _ _ hb3, ?_⟩
  rw [getSq_setSq_ne _ _ _ _ _ _ (fun he => hkc (Prod.mk.injEq .. ▸ he).1),
    getSq_setSq_ne _ _ _ _ _ _ (fun he => hkr (Prod.mk.injEq .. ▸ he).1),
    getSq_setSq_ne _ _ _ _ _ _ (fun he => hk4 (Prod.mk.injEq .. ▸ he).1)]
  exact getSq_setSq_self _ _ _ _ hbw hkx hline

theorem castle_board_other (b : Board) (c : Color) (line kx rx corner : Nat)
    (other : Nat × Nat)
    (hne4 : other ≠ (4, line)) (hnek : other ≠ (kx, line))
    (hner : other ≠ (rx, line)) (hnec : other ≠ (corner, line)) :
    getSq (setSq (setSq (setSq (setSq b kx line (some (c, Piece.King)))
        4 line none) rx line (some (c, Piece.Rook))) corner line none) other.1 other.2
      = getSq b other.1 other.2 := by
  rw [getSq_setSq_ne _ _ _ _ _ _ (eta_ne_pair hnec),
    getSq_setSq_ne _ _ _ _ _ _ (eta_ne_pair hner),
    getSq_setSq_ne _ _ _ _ _ _ (eta_ne_pair hne4),
    getSq_setSq_ne _ _ _ _ _ _ (eta_ne_pair hnek)]

theorem invParts_playColor (g : ChessGame) (c : Color) (m : Move) (g1 : ChessGame)
    (hc : g.turn = c) (hInv : Inv g) (hWF : WellFormed g m)
    (hPC : playColor g c (colorDelta c) m = some g1) :
    InvParts g1.board g1.white_king g1.black_king := by
  cases m with
  | basic mfx mfy isCap piece promo to_x to_y =>
    obtain ⟨hx, hy, hrest⟩ := hWF
    rw [hc] at hrest
    cases piece with
    | Bishop =>
      obtain ⟨hdf, oW, hfindW, hofree⟩ := hrest
      obtain ⟨o, hfind, hg1⟩ := Option.map_eq_some'.mp hPC
      obtain rfl := Option.some_injective _ (hfindW.symm.trans hfind)
      subst hg1
      exact invParts_one_set _ _ _ oW none
        (invParts_one_set _ _ _ (to_x, to_y) _ hInv hdf.1 hdf.2) hofree.1 hofree.2
    | Knight =>
      obtain ⟨hdf, oW, hfindW, hofree⟩ := hrest
      obtain ⟨o, hfind, hg1⟩ := Option.map_eq_some'.mp hPC
      obtain rfl := Option.some_injective _ (hfindW.symm.trans hfind)
      subst hg1
      exact invParts_one_set _ _ _ oW none
        (invParts_one_set _ _ _ (to_x, to_y) _ hInv hdf.1 hdf.2) hofree.1 hofree.2
    | Queen =>
      obtain ⟨hdf, oW, hfindW, hofree⟩ := hrest
      obtain ⟨o, hfind, hg1⟩ := Option.map_eq_some'.mp hPC
      obtain rfl := Option.some_injective _ (hfindW.symm.trans hfind)
      subst hg1
      exact invParts_one_set _ _ _ oW none
        (invParts_one_set _ _ _ (to_x, to_y) _ hInv hdf.1 hdf.2) hofree.1 hofree.2
    | Rook =>
      obtain ⟨hdf, oW, hfindW, hofree⟩ := hrest
      obtain ⟨o, hfind, hg1⟩ := Option.map_eq_some'.mp hPC
      obtain rfl := Option.some_injective _ (hfindW.symm.trans hfind)
      subst hg1
      exact invParts_one_set _ _ _ oW none
        (invParts_one_set _ _ _ (to_x, to_y) _ hInv hdf.1 hdf.2) hofree.1 hofree.2
    | Pawn =>
      obtain ⟨hdf, ⟨oW, hfindW, hofree⟩, hep⟩ := hrest
      obtain ⟨o, hfind, hg1⟩ := Option.map_eq_some'.mp hPC
      obtain rfl := Option.some_injective _ (hfindW.symm.trans hfind)
      subst hg1
      have hb0 : InvParts
          (if isCap && (getSq g.board to_x to_y).isNone then
            setSq g.board to_x ((to_y : Int) + colorDelta c).toNat none
          else g.board) g.white_king g.black_king := by
        cases hcond : isCap && (getSq g.board to_x to_y).isNone with
        | false => exact hInv
        | true =>
          obtain ⟨hc1, hc2⟩ := Bool.and_eq_true .. |>.mp hcond
          have hfree := hep hc1 (Option.isNone_iff_eq_none.mp hc2)
          exact invParts_one_set _ _ _
            (to_x, ((to_y : Int) + colorDelta c).toNat) none hInv hfree.1 hfree.2
      exact invParts_one_set _ _ _ oW none
        (invParts_one_set _ _ _ (to_x, to_y) _ hb0 hdf.1 hdf.2) hofree.1 hofree.2
    | King =>
      obtain ⟨hdo, oW, hfindW, hod, hoo⟩ := hrest
      obtain ⟨o, hfind, hg1⟩ := Option.map_eq_some'.mp hPC
      obtain rfl := Option.some_injective _ (hfindW.symm.trans hfind)
      subst hg1
      cases c with
      | White =>
        rw [otherCache_white g hc] at hdo hoo
        exact invParts_white_king_move g.board g.white_king g.black_king
          (to_x, to_y) oW hInv hx hy hod hoo hdo
      | Black =>
        rw [otherCache_black g hc] at hdo hoo
        exact invParts_black_king_move g.board g.white_king g.black_king
          (to_x, to_y) oW hInv hx hy hod hoo hdo
  | castleKingside =>
    obtain ⟨h4, h5, h6, h7⟩ := hWF
    obtain rfl := Option.some_injective _ hPC
    cases c with
    | White =>
      rw [otherCache_white g hc, hc] at h4 h5 h6 h7
      obtain ⟨hwf', hking⟩ := castle_board_wf_king g.board Color.White
        (backRank Color.White) 6 5 7 hInv.1 (by decide) (by decide) (by decide)
        (by decide) (by decide)
      exact ⟨hwf', hking,
        (castle_board_other g.board Color.White (backRank Color.White) 6 5 7
          g.black_king h4 h6 h5 h7).trans hInv.2.2⟩
    | Black =>
      rw [otherCache_black g hc, hc] at h4 h5 h6 h7
      obtain ⟨hwf', hking⟩ := castle_board_wf_king g.board Color.Black
        (backRank Color.Black) 6 5 7 hInv.1 (by decide) (by decide) (by decide)
        (by decide) (by decide)
      exact ⟨hwf',
        (castle_board_other g.board Color.Black (backRank Color.Black) 6 5 7
          g.white_king h4 h6 h5 h7).trans hInv.2.1, hking⟩
  | castleQueenside =>
    obtain ⟨h0, h2, h3, h4⟩ := hWF
    obtain rfl := Option.some_injective _ hPC
    cases c with
    | White =>
      rw [otherCache_white g hc, hc] at h0 h2 h3 h4
      obtain ⟨hwf', hking⟩ := castle_board_wf_king g.board Color.White
        (backRank Color.White) 2 3 0 hInv.1 (by decide) (by decide) (by decide)
        (by decide) (by decide)
      exact ⟨hwf', hking,
        (castle_board_other g.board Color.White (backRank Color.White) 2 3 0
          g.black_king h4 h2 h3 h0).trans hInv.2.2⟩
    | Black =>
      rw [otherCache_black g hc, hc] at h0 h2 h3 h4
      obtain ⟨hwf', hking⟩ := castle_board_wf_king g.board Color.Black
        (backRank Color.Black) 2 3 0 hInv.1 (by decide) (by decide) (by decide)
        (by decide) (by decide)
      exact ⟨hwf',
        (castle_board_other g.board Color.Black (backRank Color.Black) 2 3 0
          g.white_king h4 h2 h3 h0).trans hInv.2.1, hking⟩

theorem inv_preserved (g : ChessGame) (m : Move) (g' : ChessGame)
    (hInv : Inv g) (hWF : WellFormed g m) (hP : play g m = some g') : Inv g' := by
  unfold play at hP
  cases ht : g.turn with
  | White =>
    rw [ht, if_pos rfl] at hP
    obtain ⟨g1, hPC, hg'⟩ := Option.map_eq_some'.mp hP
    subst hg'
    exact invParts_playColor g Color.White m g1 ht hInv hWF hPC
  | Black =>
    rw [ht, if_neg (fun hw => Color.noConfusion hw)] at hP
    obtain ⟨g1, hPC, hg'⟩ := Option.map_eq_some'.mp hP
    subst hg'
    exact invParts_playColor g Color.Black m g1 ht hInv hWF hPC

theorem reachable_inv (g : ChessGame) (h : ReachableWF g) : Inv g := by
  induction h with
  | init => exact ⟨by decide, by decide, by decide⟩
  | step hr hwf hp ih => exact inv_preserved _ _ _ ih hwf hp

/--
C2.  In every game state reachable from the initial position by `play`
applications on well-formed trusted moves, the board square at the
cached king location of each color holds that color's King — King
moves and both castling forms included, since they update the cache
together with the board squares.
-/
theorem king_cache_invariant (g : ChessGame) (h : ReachableWF g) :
    getSq g.board g.white_king.1 g.white_king.2 = some (Color.White, Piece.King) ∧
    getSq g.board g.black_king.1 g.black_king.2 = some (Color.Black, Piece.King) :=
  ⟨(reachable_inv g h).2.1, (reachable_inv g h).2.2⟩

/--
C2 witness: the invariant at the initial position itself.
-/
theorem king_cache_invariant_w :
    getSq initialGame.board initialGame.white_king.1 initialGame.white_king.2
      = some (Color.White, Piece.King) ∧
    getSq initialGame.board initialGame.black_king.1 initialGame.black_king.2
      = some (Color.Black, Piece.King) :=
  king_cache_invariant initialGame ReachableWF.init

end Pgn2Pdf
